import Mathlib

/-! StandardGeneticCode: codon translation

A verification development for `src/Seq/StandardGeneticCode.cpp`.

The two overloads of `StandardGeneticCode::translate` are embedded as Lean
functions into `Except Exn _`: a C++ `return` is `Except.ok`, a C++ `throw`
is `Except.error`.  The nested `switch` statements of the integer overload
are transcribed with a combinator `switchOn` that implements the C++ rule of
a `switch` without `break` and without `default`: control jumps to the
matching label, runs the statements that follow in order, and leaves the
block at its closing brace when none of them returned or threw.

The classes `StandardCodonAlphabet`, `ProteicAlphabet` and the exception
classes are not part of the sources at hand; the alphabets and the exception
class hierarchy are parameters of the development.

A dynamic exception specification (`throw (...)` after a signature, lines 24
and 114) acts when an exception leaves the function: an exception of a class
the specification does not allow ends in a call of `std::unexpected()`.
`translate` and `translateString` give what the function itself returns or
throws; `translateCall` and `translateStringCall` give what its caller
receives.
-/

namespace StandardGeneticCode

/-- Which of the two alphabets owned by the object an exception refers to. -/
inductive AlphabetRef where
  | codonAlphabet
  | proteicAlphabet
  deriving DecidableEq, Repr

/-- The exceptions that occur in the source, with their constructor arguments:
`StopCodonException(text, codon)`, `BadIntException(i, text, alphabet)` and
`BadCharException(c, text, alphabet)`; and `unexpected`, which is no exception
but the call of `std::unexpected()` by which an exception ends that leaves a
function against its exception specification (the program terminates, unless
a handler has been installed). -/
inductive Exn where
  | StopCodonException (text : String) (codon : String)
  | BadIntException (i : Int) (text : String) (alphabet : AlphabetRef)
  | BadCharException (c : String) (text : String) (alphabet : AlphabetRef)
  | unexpected
  deriving DecidableEq, Repr

/-- The names of the three exception classes. -/
inductive ExnClass where
  | StopCodonException
  | BadIntException
  | BadCharException
  deriving DecidableEq, Repr

/-- The class of an exception; `unexpected` has none. -/
def Exn.exceptionClass : Exn → Option ExnClass
  | Exn.StopCodonException _ _ => some ExnClass.StopCodonException
  | Exn.BadIntException _ _ _ => some ExnClass.BadIntException
  | Exn.BadCharException _ _ _ => some ExnClass.BadCharException
  | Exn.unexpected => none

/-- The exception class hierarchy, as far as an exception specification reads
it: `derivesFrom d b` tells whether the class `d` is derived, directly or
through other classes, from the class `b`. -/
structure ExceptionClasses where
  derivesFrom : ExnClass → ExnClass → Bool

/-- An exception specification `throw (b1, ..., bn)` allows an exception whose
class is one of the listed classes or is derived from one of them. -/
def ExceptionClasses.allows (exceptionClasses : ExceptionClasses)
    (specification : List ExnClass) (e : Exn) : Bool :=
  match e.exceptionClass with
  | none => true
  | some d => specification.any fun b => decide (d = b) || exceptionClasses.derivesFrom d b

/-- What the caller of a function with the exception specification
`specification` receives when the function returns or throws `r`: a returned
value and an allowed exception pass; any other exception ends in
`std::unexpected()`. -/
def leaveFunction {α : Type} (exceptionClasses : ExceptionClasses)
    (specification : List ExnClass) : Except Exn α → Except Exn α
  | Except.ok v => Except.ok v
  | Except.error e =>
    if exceptionClasses.allows specification e then Except.error e
    else Except.error Exn.unexpected

/-- The `vector<int>` returned by `getPositions`; the source reads exactly
`positions[0]`, `positions[1]` and `positions[2]`. -/
structure Positions where
  p0 : Int
  p1 : Int
  p2 : Int
  deriving DecidableEq, Repr

/-- The member `codonAlphabet`, as far as the source uses it:
`charToInt` (line 115) and `getPositions` (line 25).  Both may throw. -/
structure CodonAlphabet where
  charToInt : String → Except Exn Int
  getPositions : Int → Except Exn Positions

/-- The member `proteicAlphabet`, as far as the source uses it: `charToInt`,
applied only to the twenty literal one-letter codes of lines 34 to 107, each
of which it maps to an index, and `intToChar` (line 115), which may throw. -/
structure ProteicAlphabet where
  charToInt : String → Int
  intToChar : Int → Except Exn String

deriving instance DecidableEq for Except

/-- The effect of running a statement of `translate(int)`.
`exit` is `some r` when the statement left the function (by `return` or by
`throw`) with outcome `r`, and `none` when control reached the end of the
statement.  `fellThrough` records whether, on the way, control ran from the
end of the statement of one `case` into the statement of the next one. -/
structure Flow where
  exit : Option (Except Exn Int)
  fellThrough : Bool
  deriving DecidableEq, Repr

/-- The statement `return n;`. -/
def Flow.ret (n : Int) : Flow := ⟨some (Except.ok n), false⟩

/-- The statement `throw e;`. -/
def Flow.raise (e : Exn) : Flow := ⟨some (Except.error e), false⟩

/-- Runs the labelled statements of a `switch` block in order, starting with
the first of the list, up to the closing brace. -/
def runCases : List Flow → Flow
  | [] => ⟨none, false⟩
  | s :: rest =>
    match s.exit with
    | some _ => s
    | none =>
      match rest with
      | [] => s
      | _ :: _ => ⟨(runCases rest).exit, true⟩

/-- The statement `switch (v) { case l : ... : stmt  ... }` without `break`
and without `default`: each item of the list is one statement with the case
labels written in front of it. -/
def switchOn (v : Int) : List (List Int × Flow) → Flow
  | [] => ⟨none, false⟩
  | (labels, s) :: rest =>
    if v ∈ labels then runCases (s :: rest.map Prod.snd) else switchOn v rest

/-- Lines 26 to 110: the nested `switch` over `positions[0]`, `positions[1]`
and `positions[2]`. -/
def translateSwitch (proteicAlphabet : ProteicAlphabet) (positions : Positions) : Flow :=
  switchOn positions.p0 [
    -- A
    ([0], switchOn positions.p1 [
      -- AA
      ([0], switchOn positions.p2 [
        ([0, 2], Flow.ret (proteicAlphabet.charToInt "K")),
        ([1, 3], Flow.ret (proteicAlphabet.charToInt "N"))]),
      -- AC
      ([1], Flow.ret (proteicAlphabet.charToInt "T")),
      -- AG
      ([2], switchOn positions.p2 [
        ([0, 2], Flow.ret (proteicAlphabet.charToInt "R")),
        ([1, 3], Flow.ret (proteicAlphabet.charToInt "S"))]),
      -- AT
      ([3], switchOn positions.p2 [
        ([2], Flow.ret (proteicAlphabet.charToInt "M")),
        ([0, 1, 3], Flow.ret (proteicAlphabet.charToInt "I"))])]),
    -- C
    ([1], switchOn positions.p1 [
      -- CA
      ([0], switchOn positions.p2 [
        ([0, 2], Flow.ret (proteicAlphabet.charToInt "Q")),
        ([1, 3], Flow.ret (proteicAlphabet.charToInt "H"))]),
      -- CC
      ([1], Flow.ret (proteicAlphabet.charToInt "P")),
      -- CG
      ([2], Flow.ret (proteicAlphabet.charToInt "R")),
      -- CT
      ([3], Flow.ret (proteicAlphabet.charToInt "L"))]),
    -- G
    ([2], switchOn positions.p1 [
      -- GA
      ([0], switchOn positions.p2 [
        ([0, 2], Flow.ret (proteicAlphabet.charToInt "E")),
        ([1, 3], Flow.ret (proteicAlphabet.charToInt "D"))]),
      -- GC
      ([1], Flow.ret (proteicAlphabet.charToInt "A")),
      -- GG
      ([2], Flow.ret (proteicAlphabet.charToInt "G")),
      -- GT
      ([3], Flow.ret (proteicAlphabet.charToInt "V"))]),
    -- T(U)
    ([3], switchOn positions.p1 [
      -- TA
      ([0], switchOn positions.p2 [
        ([0], Flow.raise (Exn.StopCodonException "" "TAA")),
        ([2], Flow.raise (Exn.StopCodonException "" "TAG")),
        ([1, 3], Flow.ret (proteicAlphabet.charToInt "Y"))]),
      -- TC
      ([1], Flow.ret (proteicAlphabet.charToInt "S")),
      -- TG
      ([2], switchOn positions.p2 [
        ([0], Flow.raise (Exn.StopCodonException "" "TGA")),
        ([2], Flow.ret (proteicAlphabet.charToInt "W")),
        ([1, 3], Flow.ret (proteicAlphabet.charToInt "C"))]),
      -- TT
      ([3], switchOn positions.p2 [
        ([0, 2], Flow.ret (proteicAlphabet.charToInt "L")),
        ([1, 3], Flow.ret (proteicAlphabet.charToInt "F"))])])]

/-- The overload `int StandardGeneticCode::translate(int i)`, lines 24 to 112,
as to what the function returns or throws: decode `i`, run the nested
`switch`, and throw `BadIntException` when control leaves the `switch` at its
closing brace. -/
def translate (codonAlphabet : CodonAlphabet) (proteicAlphabet : ProteicAlphabet)
    (i : Int) : Except Exn Int :=
  match codonAlphabet.getPositions i with
  | Except.error e => Except.error e
  | Except.ok positions =>
    match (translateSwitch proteicAlphabet positions).exit with
    | some r => r
    | none =>
      Except.error (Exn.BadIntException i "StandardGeneticCode::translate"
        AlphabetRef.codonAlphabet)

/-- What a caller of `translate(int)` receives: the outcome of the function
after the exception specification `throw (BadIntException)` of line 24. -/
def translateCall (exceptionClasses : ExceptionClasses) (codonAlphabet : CodonAlphabet)
    (proteicAlphabet : ProteicAlphabet) (i : Int) : Except Exn Int :=
  leaveFunction exceptionClasses [ExnClass.BadIntException]
    (translate codonAlphabet proteicAlphabet i)

/-- The overload `string StandardGeneticCode::translate(const string & c)`,
lines 114 to 116, as to what the function returns or throws:
`intToChar(translate(charToInt(c)))`, the argument of each call being
evaluated before the call, and the call of `translate(int)` yielding what
line 24 lets through. -/
def translateString (exceptionClasses : ExceptionClasses) (codonAlphabet : CodonAlphabet)
    (proteicAlphabet : ProteicAlphabet) (c : String) : Except Exn String :=
  match codonAlphabet.charToInt c with
  | Except.error e => Except.error e
  | Except.ok i =>
    match translateCall exceptionClasses codonAlphabet proteicAlphabet i with
    | Except.error e => Except.error e
    | Except.ok n => proteicAlphabet.intToChar n

/-- What a caller of `translate(const string &)` receives: the outcome of the
function after the exception specification `throw (BadCharException)` of
line 114. -/
def translateStringCall (exceptionClasses : ExceptionClasses)
    (codonAlphabet : CodonAlphabet) (proteicAlphabet : ProteicAlphabet)
    (c : String) : Except Exn String :=
  leaveFunction exceptionClasses [ExnClass.BadCharException]
    (translateString exceptionClasses codonAlphabet proteicAlphabet c)

/-! ## Codons, spellings and the tables of the specification -/

/-- A position is a nucleotide code when it is one of A=0, C=1, G=2, T=3. -/
def validPosition (x : Int) : Prop := x = 0 ∨ x = 1 ∨ x = 2 ∨ x = 3

instance (x : Int) : Decidable (validPosition x) := by
  unfold validPosition; infer_instance

/-- A triple of positions is a codon when each position is in {0,1,2,3}. -/
def Positions.isCodon (p : Positions) : Prop :=
  validPosition p.p0 ∧ validPosition p.p1 ∧ validPosition p.p2

instance (p : Positions) : Decidable p.isCodon := by
  unfold Positions.isCodon; infer_instance

/-- The letter of a nucleotide code under A=0, C=1, G=2, T=3. -/
def nucleotideLetter (x : Int) : Char :=
  if x = 0 then 'A' else if x = 1 then 'C' else if x = 2 then 'G' else 'T'

/-- The three-letter spelling of a triple of positions. -/
def Positions.spelling (p : Positions) : String :=
  String.mk [nucleotideLetter p.p0, nucleotideLetter p.p1, nucleotideLetter p.p2]

/-- The three stop codons TAA, TAG and TGA as triples of positions. -/
def Positions.isStop (p : Positions) : Prop :=
  p = ⟨3, 0, 0⟩ ∨ p = ⟨3, 0, 2⟩ ∨ p = ⟨3, 2, 0⟩

instance (p : Positions) : Decidable p.isStop := by
  unfold Positions.isStop; infer_instance

/-- The one-letter codes of the twenty standard amino acids. -/
def aminoAcidLetters : List String :=
  ["A", "C", "D", "E", "F", "G", "H", "I", "K", "L",
   "M", "N", "P", "Q", "R", "S", "T", "V", "W", "Y"]

/-- The outcome is a `StopCodonException`. -/
def raisesStopCodon : Except Exn Int → Bool
  | Except.error (Exn.StopCodonException _ _) => true
  | _ => false

/-- The outcome is a `BadIntException`. -/
def raisesBadInt : Except Exn Int → Bool
  | Except.error (Exn.BadIntException _ _ _) => true
  | _ => false

/-- An entry of a translation table: an amino-acid letter, or `STOP(codon)`. -/
inductive TableEntry where
  | aminoAcid (letter : String)
  | STOP (codon : String)
  deriving DecidableEq, Repr

/-- What an entry says about an outcome of `translate`: a letter stands for
returning `proteicAlphabet.charToInt(letter)`, `STOP(codon)` for raising a
`StopCodonException` that carries `codon`. -/
def TableEntry.describes (proteicAlphabet : ProteicAlphabet) :
    TableEntry → Except Exn Int → Prop
  | TableEntry.aminoAcid letter, r => r = Except.ok (proteicAlphabet.charToInt letter)
  | TableEntry.STOP codon, Except.error (Exn.StopCodonException _ codon') => codon' = codon
  | TableEntry.STOP _, _ => False

/-- Reads a table as the specification documents it: row = first position,
column group = second position, sub-entry = third position. -/
def readTable (table : List (List (List TableEntry))) (p : Positions) : Option TableEntry :=
  match table.get? p.p0.toNat with
  | none => none
  | some row =>
    match row.get? p.p1.toNat with
    | none => none
    | some cell => cell.get? p.p2.toNat

/-- The translation table as printed in §4.1 of the specification. -/
def specTable : List (List (List TableEntry)) :=
  let K := TableEntry.aminoAcid "K"; let N := TableEntry.aminoAcid "N"
  let T := TableEntry.aminoAcid "T"; let R := TableEntry.aminoAcid "R"
  let S := TableEntry.aminoAcid "S"; let I := TableEntry.aminoAcid "I"
  let M := TableEntry.aminoAcid "M"; let Q := TableEntry.aminoAcid "Q"
  let H := TableEntry.aminoAcid "H"; let P := TableEntry.aminoAcid "P"
  let L := TableEntry.aminoAcid "L"; let E := TableEntry.aminoAcid "E"
  let D := TableEntry.aminoAcid "D"; let A := TableEntry.aminoAcid "A"
  let G := TableEntry.aminoAcid "G"; let V := TableEntry.aminoAcid "V"
  let Y := TableEntry.aminoAcid "Y"; let C := TableEntry.aminoAcid "C"
  let W := TableEntry.aminoAcid "W"; let F := TableEntry.aminoAcid "F"
  let STOP := TableEntry.STOP
  [ [ [K, N, K, N], [T, T, T, T], [R, S, R, S], [I, M, I, I] ],
    [ [Q, H, Q, H], [P, P, P, P], [R, R, R, R], [L, L, L, L] ],
    [ [E, D, E, D], [A, A, A, A], [G, G, G, G], [V, V, V, V] ],
    [ [Y, STOP "TAA", Y, STOP "TAG"], [S, S, S, S], [C, STOP "TGA", W, C], [L, F, L, F] ] ]

/-- The table of §4.1 with the cells AT, TA and TG put in the order A,C,G,T
of the third position; every other cell is as printed. -/
def amendedTable : List (List (List TableEntry)) :=
  let K := TableEntry.aminoAcid "K"; let N := TableEntry.aminoAcid "N"
  let T := TableEntry.aminoAcid "T"; let R := TableEntry.aminoAcid "R"
  let S := TableEntry.aminoAcid "S"; let I := TableEntry.aminoAcid "I"
  let M := TableEntry.aminoAcid "M"; let Q := TableEntry.aminoAcid "Q"
  let H := TableEntry.aminoAcid "H"; let P := TableEntry.aminoAcid "P"
  let L := TableEntry.aminoAcid "L"; let E := TableEntry.aminoAcid "E"
  let D := TableEntry.aminoAcid "D"; let A := TableEntry.aminoAcid "A"
  let G := TableEntry.aminoAcid "G"; let V := TableEntry.aminoAcid "V"
  let Y := TableEntry.aminoAcid "Y"; let C := TableEntry.aminoAcid "C"
  let W := TableEntry.aminoAcid "W"; let F := TableEntry.aminoAcid "F"
  let STOP := TableEntry.STOP
  [ [ [K, N, K, N], [T, T, T, T], [R, S, R, S], [I, I, M, I] ],
    [ [Q, H, Q, H], [P, P, P, P], [R, R, R, R], [L, L, L, L] ],
    [ [E, D, E, D], [A, A, A, A], [G, G, G, G], [V, V, V, V] ],
    [ [STOP "TAA", Y, STOP "TAG", Y], [S, S, S, S], [STOP "TGA", C, W, C], [L, F, L, F] ] ]

/-- The canonical standard genetic code as a 64-character string, indexed by
`16*p0 + 4*p1 + p2`; `*` marks a stop codon. -/
def canonicalCode : String :=
  "KNKNTTTTRSRSIIMIQHQHPPPPRRRRLLLLEDEDAAAAGGGGVVVV*Y*YSSSS*CWCLFLF"

/-- The direct 64-entry lookup: the character of `canonicalCode` at index
`16*p0 + 4*p1 + p2`. -/
def lookup (p : Positions) : Option Char :=
  canonicalCode.data.get? (16 * p.p0 + 4 * p.p1 + p.p2).toNat

/-- What a character of `canonicalCode` says about an outcome: a letter means
returning `proteicAlphabet.charToInt(letter)`, `*` means raising a
`StopCodonException`. -/
def lookupDescribes (proteicAlphabet : ProteicAlphabet) (ch : Char)
    (r : Except Exn Int) : Prop :=
  if ch = '*' then raisesStopCodon r = true
  else r = Except.ok (proteicAlphabet.charToInt (String.singleton ch))

/-! ## Sample alphabets -/

/-- Modelled from the spec: a codon alphabet that encodes a codon "as a single
integer via a fixed radix-4 positional scheme (first position most
significant)"; `StandardCodonAlphabet` itself is not among the sources.  The
radix is the number of nucleotide letters given, so that alphabets with an
extra symbol can be built the same way. -/
def radixCodonAlphabet (letters : List Char) : CodonAlphabet where
  charToInt := fun c =>
    let b : Int := letters.length
    match c.data with
    | [x, y, z] =>
      if x ∈ letters ∧ y ∈ letters ∧ z ∈ letters then
        Except.ok (b * b * letters.indexOf x + b * letters.indexOf y + letters.indexOf z)
      else Except.error (Exn.BadCharException c "Alphabet::charToInt" AlphabetRef.codonAlphabet)
    | _ => Except.error (Exn.BadCharException c "Alphabet::charToInt" AlphabetRef.codonAlphabet)
  getPositions := fun i =>
    let b : Int := letters.length
    if 0 ≤ i ∧ i < b * b * b then Except.ok ⟨i / (b * b), i / b % b, i % b⟩
    else Except.error (Exn.BadIntException i "CodonAlphabet::getPositions"
      AlphabetRef.codonAlphabet)

/-- The codon alphabet over A, C, G, T: index `16*p0 + 4*p1 + p2`. -/
def standardCodonAlphabet : CodonAlphabet := radixCodonAlphabet ['A', 'C', 'G', 'T']

/-- A codon alphabet with a fifth nucleotide symbol N (code 4) for an
unresolved base: index `25*p0 + 5*p1 + p2`. -/
def ambiguousCodonAlphabet : CodonAlphabet := radixCodonAlphabet ['A', 'C', 'G', 'T', 'N']

/-- Modelled from the spec: a proteic alphabet, "the ordered set of 20
standard amino acid one-letter codes ... with a fixed char↔index mapping";
`ProteicAlphabet` itself is not among the sources.  A string that is not one
of the twenty letters gets the index 20, which `intToChar` rejects. -/
def sampleProteicAlphabet : ProteicAlphabet where
  charToInt := fun s =>
    (["A", "R", "N", "D", "C", "Q", "E", "G", "H", "I",
      "L", "K", "M", "F", "P", "S", "T", "W", "Y", "V"].indexOf s : Nat)
  intToChar := fun n =>
    match ["A", "R", "N", "D", "C", "Q", "E", "G", "H", "I",
      "L", "K", "M", "F", "P", "S", "T", "W", "Y", "V"].get? n.toNat with
    | some s => if 0 ≤ n then Except.ok s
      else Except.error (Exn.BadIntException n "Alphabet::intToChar" AlphabetRef.proteicAlphabet)
    | none => Except.error (Exn.BadIntException n "Alphabet::intToChar" AlphabetRef.proteicAlphabet)

/-- Modelled from the spec: the exception classes, which are not among the
sources.  §6 lists the signalled conditions as "StopCodonException{contextLabel,
codonText}", "BadIndexException{index, contextLabel, alphabetDescription}" and
"BadCharException{contextLabel, invalidText}": three classes none of which has
the fields of another, so none is derived from another. -/
def specExceptionClasses : ExceptionClasses where
  derivesFrom := fun _ _ => false

/-- A proteic alphabet that agrees with `sampleProteicAlphabet` on the twenty
amino-acid letters and differs from it on every other string. -/
def otherProteicAlphabet : ProteicAlphabet where
  charToInt := fun s =>
    if s ∈ aminoAcidLetters then sampleProteicAlphabet.charToInt s else -1
  intToChar := sampleProteicAlphabet.intToChar

/-- The triples on which control leaves the nested `switch` at its closing
brace: the first or the second position is no nucleotide code, or the codon
starts with TG or TT and the third position is no nucleotide code. -/
def Positions.reachesTrailingThrow (p : Positions) : Prop :=
  ¬ validPosition p.p0 ∨ ¬ validPosition p.p1 ∨
    (p.p0 = 3 ∧ (p.p1 = 2 ∨ p.p1 = 3) ∧ ¬ validPosition p.p2)

instance (p : Positions) : Decidable p.reachesTrailingThrow := by
  unfold Positions.reachesTrailingThrow; infer_instance

/-- The 64 triples with each position in {0,1,2,3}. -/
def allCodons : List Positions :=
  [0, 1, 2, 3].flatMap fun a =>
    [0, 1, 2, 3].flatMap fun b => [0, 1, 2, 3].map fun c => ⟨a, b, c⟩

/-- The letter the standard genetic code has for a codon, as a one-letter
string; `*` for a stop codon. -/
def standardLetter (p : Positions) : Option String :=
  (lookup p).map String.singleton

/-- The number of codons of each amino acid in the standard genetic code. -/
def degeneracy : List (String × Nat) :=
  [("L", 6), ("S", 6), ("R", 6), ("A", 4), ("G", 4), ("P", 4), ("T", 4), ("V", 4),
   ("I", 3), ("C", 2), ("D", 2), ("E", 2), ("F", 2), ("H", 2), ("K", 2), ("N", 2),
   ("Q", 2), ("Y", 2), ("M", 1), ("W", 1)]

/-- The index of a triple in the radix-4 scheme, first position most
significant. -/
def radix4Index (p : Positions) : Int := 16 * p.p0 + 4 * p.p1 + p.p2

/-- Two outcomes of `translate` are the same outcome of the genetic code when
they are identical, or when both are a `StopCodonException` (each carrying the
text of its own codon). -/
def sameOutcome (r s : Except Exn Int) : Prop :=
  r = s ∨ (raisesStopCodon r = true ∧ raisesStopCodon s = true)

instance (r s : Except Exn Int) : Decidable (sameOutcome r s) := by
  unfold sameOutcome; infer_instance

/-! ## Shared lemmas -/

/-- Once the index is decoded, `translate` is the outcome of the nested
`switch`, or the trailing `BadIntException` when the `switch` is left at its
closing brace. -/
theorem translate_of_getPositions (codonAlphabet : CodonAlphabet)
    (proteicAlphabet : ProteicAlphabet) (i : Int) (p : Positions)
    (h : codonAlphabet.getPositions i = Except.ok p) :
    translate codonAlphabet proteicAlphabet i =
      (translateSwitch proteicAlphabet p).exit.getD
        (Except.error (Exn.BadIntException i "StandardGeneticCode::translate"
          AlphabetRef.codonAlphabet)) := by
  unfold translate
  rw [h]
  show (match (translateSwitch proteicAlphabet p).exit with
    | some r => r
    | none => _) = _
  cases (translateSwitch proteicAlphabet p).exit <;> rfl

/-! ## The translation table -/

/-- C1, as stated, fails at the codon ATC (index 13 of the radix-4 alphabet):
the AT cell of the table of §4.1, read in the order A,C,G,T, gives M for the
third position C, while `translate` returns the code of I. -/
theorem specTable_fails_at_ATC :
    standardCodonAlphabet.getPositions 13 = Except.ok ⟨0, 3, 1⟩ ∧
    readTable specTable ⟨0, 3, 1⟩ = some (TableEntry.aminoAcid "M") ∧
    translate standardCodonAlphabet sampleProteicAlphabet 13 =
      Except.ok (sampleProteicAlphabet.charToInt "I") ∧
    ¬ ∃ e, readTable specTable ⟨0, 3, 1⟩ = some e ∧
      e.describes sampleProteicAlphabet
        (translate standardCodonAlphabet sampleProteicAlphabet 13) := by
  refine ⟨by decide, by decide, by decide, ?_⟩
  rintro ⟨e, he, hd⟩
  have he' : e = TableEntry.aminoAcid "M" := by
    have h : readTable specTable ⟨0, 3, 1⟩ = some (TableEntry.aminoAcid "M") := by decide
    rw [h] at he
    exact (Option.some.inj he).symm
  subst he'
  have ht : translate standardCodonAlphabet sampleProteicAlphabet 13 = Except.ok 9 := by
    decide
  rw [ht] at hd
  have hd' : (Except.ok 9 : Except Exn Int) =
      Except.ok (sampleProteicAlphabet.charToInt "M") := hd
  exact absurd hd' (by decide)

/-- C1, amended: for every index decoding to a codon, the outcome of
`translate` is the entry of the table of §4.1 with the cells AT, TA and TG
reordered to I,I,M,I, to STOP(TAA),Y,STOP(TAG),Y and to STOP(TGA),C,W,C; in
the thirteen other cells this is the entry of the table as printed. -/
theorem translate_matches_amendedTable (codonAlphabet : CodonAlphabet)
    (proteicAlphabet : ProteicAlphabet) (i : Int) (p : Positions)
    (hget : codonAlphabet.getPositions i = Except.ok p) (hcodon : p.isCodon) :
    ∃ e, readTable amendedTable p = some e ∧
      e.describes proteicAlphabet (translate codonAlphabet proteicAlphabet i) ∧
      (¬ (p.p0 = 0 ∧ p.p1 = 3 ∨ p.p0 = 3 ∧ p.p1 = 0 ∨ p.p0 = 3 ∧ p.p1 = 2) →
        readTable specTable p = some e) := by
  rw [translate_of_getPositions codonAlphabet proteicAlphabet i p hget]
  obtain ⟨p0, p1, p2⟩ := p
  obtain ⟨h0, h1, h2⟩ := hcodon
  simp only [validPosition] at h0 h1 h2
  rcases h0 with rfl | rfl | rfl | rfl <;> rcases h1 with rfl | rfl | rfl | rfl <;>
    rcases h2 with rfl | rfl | rfl | rfl <;>
    exact ⟨_, rfl, rfl, by decide⟩

/-- The amended C1 at the codon ATG: index 14 decodes to (0,3,2), the amended
table reads M there, and `translate` returns the code of M. -/
theorem translate_matches_amendedTable_witness :
    standardCodonAlphabet.getPositions 14 = Except.ok ⟨0, 3, 2⟩ ∧
    Positions.isCodon ⟨0, 3, 2⟩ ∧
    ∃ e, readTable amendedTable ⟨0, 3, 2⟩ = some e ∧
      e.describes sampleProteicAlphabet
        (translate standardCodonAlphabet sampleProteicAlphabet 14) ∧
      (¬ ((0 : Int) = 0 ∧ (3 : Int) = 3 ∨ (0 : Int) = 3 ∧ (3 : Int) = 0 ∨
          (0 : Int) = 3 ∧ (3 : Int) = 2) →
        readTable specTable ⟨0, 3, 2⟩ = some e) :=
  ⟨by decide, by decide,
    translate_matches_amendedTable standardCodonAlphabet sampleProteicAlphabet 14 ⟨0, 3, 2⟩
      (by decide) (by decide)⟩

/-- C2: for every index decoding to a codon (p0,p1,p2), the outcome of the
nested `switch` is the one the direct lookup in the 64-character string of the
canonical genetic code gives at index 16*p0 + 4*p1 + p2: a letter for
returning `charToInt(letter)`, `*` for raising `StopCodonException`. -/
theorem translate_refines_lookup (codonAlphabet : CodonAlphabet)
    (proteicAlphabet : ProteicAlphabet) (i : Int) (p : Positions)
    (hget : codonAlphabet.getPositions i = Except.ok p) (hcodon : p.isCodon) :
    ∃ ch, lookup p = some ch ∧
      lookupDescribes proteicAlphabet ch (translate codonAlphabet proteicAlphabet i) := by
  rw [translate_of_getPositions codonAlphabet proteicAlphabet i p hget]
  obtain ⟨p0, p1, p2⟩ := p
  obtain ⟨h0, h1, h2⟩ := hcodon
  simp only [validPosition] at h0 h1 h2
  rcases h0 with rfl | rfl | rfl | rfl <;> rcases h1 with rfl | rfl | rfl | rfl <;>
    rcases h2 with rfl | rfl | rfl | rfl <;>
    exact ⟨_, rfl, rfl⟩

/-- C2 at the codon TGG: index 58 decodes to (3,2,2), the string has W at
index 58, and `translate` returns the code of W. -/
theorem translate_refines_lookup_witness :
    standardCodonAlphabet.getPositions 58 = Except.ok ⟨3, 2, 2⟩ ∧
    Positions.isCodon ⟨3, 2, 2⟩ ∧
    ∃ ch, lookup ⟨3, 2, 2⟩ = some ch ∧
      lookupDescribes sampleProteicAlphabet ch
        (translate standardCodonAlphabet sampleProteicAlphabet 58) :=
  ⟨by decide, by decide,
    translate_refines_lookup standardCodonAlphabet sampleProteicAlphabet 58 ⟨3, 2, 2⟩
      (by decide) (by decide)⟩

/-! ## Stop codons -/

/-- C3: for every index decoding to a codon, `translate` raises
`StopCodonException` if and only if the codon is TAA, TAG or TGA, and on each
of the other 61 codons it returns a value. -/
theorem translate_stop_iff (codonAlphabet : CodonAlphabet)
    (proteicAlphabet : ProteicAlphabet) (i : Int) (p : Positions)
    (hget : codonAlphabet.getPositions i = Except.ok p) (hcodon : p.isCodon) :
    (raisesStopCodon (translate codonAlphabet proteicAlphabet i) = true ↔ p.isStop) ∧
    (¬ p.isStop → ∃ n, translate codonAlphabet proteicAlphabet i = Except.ok n) := by
  rw [translate_of_getPositions codonAlphabet proteicAlphabet i p hget]
  obtain ⟨p0, p1, p2⟩ := p
  obtain ⟨h0, h1, h2⟩ := hcodon
  simp only [validPosition] at h0 h1 h2
  rcases h0 with rfl | rfl | rfl | rfl <;> rcases h1 with rfl | rfl | rfl | rfl <;>
    rcases h2 with rfl | rfl | rfl | rfl <;>
    simp [translateSwitch, switchOn, runCases, Flow.ret, Flow.raise, raisesStopCodon,
      Positions.isStop]

/-- C3 at the codon TAG: index 50 decodes to (3,0,2), a stop codon. -/
theorem translate_stop_iff_witness :
    standardCodonAlphabet.getPositions 50 = Except.ok ⟨3, 0, 2⟩ ∧
    Positions.isCodon ⟨3, 0, 2⟩ ∧
    (raisesStopCodon (translate standardCodonAlphabet sampleProteicAlphabet 50) = true ↔
      Positions.isStop ⟨3, 0, 2⟩) ∧
    (¬ Positions.isStop ⟨3, 0, 2⟩ →
      ∃ n, translate standardCodonAlphabet sampleProteicAlphabet 50 = Except.ok n) :=
  ⟨by decide, by decide,
    translate_stop_iff standardCodonAlphabet sampleProteicAlphabet 50 ⟨3, 0, 2⟩
      (by decide) (by decide)⟩

/-- C4: whenever `translate` raises `StopCodonException` on an index decoding
to a codon, the codon text carried by the exception is the three-letter
spelling of that codon under A=0, C=1, G=2, T=3. -/
theorem stopCodon_carries_spelling (codonAlphabet : CodonAlphabet)
    (proteicAlphabet : ProteicAlphabet) (i : Int) (p : Positions)
    (hget : codonAlphabet.getPositions i = Except.ok p) (hcodon : p.isCodon)
    (text codon : String)
    (hstop : translate codonAlphabet proteicAlphabet i =
      Except.error (Exn.StopCodonException text codon)) :
    codon = p.spelling := by
  rw [translate_of_getPositions codonAlphabet proteicAlphabet i p hget] at hstop
  obtain ⟨p0, p1, p2⟩ := p
  obtain ⟨h0, h1, h2⟩ := hcodon
  simp only [validPosition] at h0 h1 h2
  rcases h0 with rfl | rfl | rfl | rfl <;> rcases h1 with rfl | rfl | rfl | rfl <;>
    rcases h2 with rfl | rfl | rfl | rfl <;>
    simp [translateSwitch, switchOn, runCases, Flow.ret, Flow.raise] at hstop <;>
    (obtain ⟨_, rfl⟩ := hstop; rfl)

/-- C4 at the codon TGA: index 56 decodes to (3,2,0), `translate` raises
`StopCodonException("", "TGA")`, and "TGA" is the spelling of (3,2,0). -/
theorem stopCodon_carries_spelling_witness :
    standardCodonAlphabet.getPositions 56 = Except.ok ⟨3, 2, 0⟩ ∧
    Positions.isCodon ⟨3, 2, 0⟩ ∧
    translate standardCodonAlphabet sampleProteicAlphabet 56 =
      Except.error (Exn.StopCodonException "" "TGA") ∧
    "TGA" = Positions.spelling ⟨3, 2, 0⟩ :=
  ⟨by decide, by decide, by decide,
    stopCodon_carries_spelling standardCodonAlphabet sampleProteicAlphabet 56 ⟨3, 2, 0⟩
      (by decide) (by decide) "" "TGA" (by decide)⟩

/-! ## Methionine, totality on codons -/

/-- C5: when `charToInt` is injective on the twenty amino-acid letters, then
for every index decoding to a codon, `translate` returns `charToInt("M")` if
and only if the codon is ATG, that is (0,3,2). -/
theorem ATG_sole_methionine (codonAlphabet : CodonAlphabet)
    (proteicAlphabet : ProteicAlphabet) (i : Int) (p : Positions)
    (hget : codonAlphabet.getPositions i = Except.ok p) (hcodon : p.isCodon)
    (hinj : ∀ a ∈ aminoAcidLetters, ∀ b ∈ aminoAcidLetters,
      proteicAlphabet.charToInt a = proteicAlphabet.charToInt b → a = b) :
    translate codonAlphabet proteicAlphabet i = Except.ok (proteicAlphabet.charToInt "M") ↔
      p = ⟨0, 3, 2⟩ := by
  rw [translate_of_getPositions codonAlphabet proteicAlphabet i p hget]
  obtain ⟨p0, p1, p2⟩ := p
  obtain ⟨h0, h1, h2⟩ := hcodon
  simp only [validPosition] at h0 h1 h2
  rcases h0 with rfl | rfl | rfl | rfl <;> rcases h1 with rfl | rfl | rfl | rfl <;>
    rcases h2 with rfl | rfl | rfl | rfl <;>
    simp [translateSwitch, switchOn, runCases, Flow.ret, Flow.raise] <;>
    (intro h; exact absurd (hinj _ (by decide) _ (by decide) h) (by decide))

/-- C5 at the codon ATG: index 14 decodes to (0,3,2), the sample proteic
alphabet is injective on the twenty letters, and `translate` returns the code
of M. -/
theorem ATG_sole_methionine_witness :
    standardCodonAlphabet.getPositions 14 = Except.ok ⟨0, 3, 2⟩ ∧
    Positions.isCodon ⟨0, 3, 2⟩ ∧
    (∀ a ∈ aminoAcidLetters, ∀ b ∈ aminoAcidLetters,
      sampleProteicAlphabet.charToInt a = sampleProteicAlphabet.charToInt b → a = b) ∧
    (translate standardCodonAlphabet sampleProteicAlphabet 14 =
        Except.ok (sampleProteicAlphabet.charToInt "M") ↔
      (⟨0, 3, 2⟩ : Positions) = ⟨0, 3, 2⟩) :=
  ⟨by decide, by decide, by decide,
    ATG_sole_methionine standardCodonAlphabet sampleProteicAlphabet 14 ⟨0, 3, 2⟩
      (by decide) (by decide) (by decide)⟩

/-- C6: for every index decoding to a codon, `translate` has exactly one
outcome, which is the code of one of the twenty standard amino acids or a
`StopCodonException`; the nested `switch` is left by `return` or `throw`, so
the trailing `throw BadIntException` is not reached, and control never runs
from the statement of one `case` into the statement of another. -/
theorem translate_total_on_codons (codonAlphabet : CodonAlphabet)
    (proteicAlphabet : ProteicAlphabet) (i : Int) (p : Positions)
    (hget : codonAlphabet.getPositions i = Except.ok p) (hcodon : p.isCodon) :
    (∃! r, translate codonAlphabet proteicAlphabet i = r ∧
      ((∃ l ∈ aminoAcidLetters, r = Except.ok (proteicAlphabet.charToInt l)) ∨
        raisesStopCodon r = true)) ∧
    (translateSwitch proteicAlphabet p).exit ≠ none ∧
    (translateSwitch proteicAlphabet p).fellThrough = false := by
  refine ⟨⟨translate codonAlphabet proteicAlphabet i, ⟨rfl, ?_⟩, fun r hr => hr.1.symm⟩, ?_, ?_⟩
  · rw [translate_of_getPositions codonAlphabet proteicAlphabet i p hget]
    obtain ⟨p0, p1, p2⟩ := p
    obtain ⟨h0, h1, h2⟩ := hcodon
    simp only [validPosition] at h0 h1 h2
    rcases h0 with rfl | rfl | rfl | rfl <;> rcases h1 with rfl | rfl | rfl | rfl <;>
      rcases h2 with rfl | rfl | rfl | rfl <;>
      first
        | exact Or.inr rfl
        | exact Or.inl ⟨_, by decide, rfl⟩
  · obtain ⟨p0, p1, p2⟩ := p
    obtain ⟨h0, h1, h2⟩ := hcodon
    simp only [validPosition] at h0 h1 h2
    rcases h0 with rfl | rfl | rfl | rfl <;> rcases h1 with rfl | rfl | rfl | rfl <;>
      rcases h2 with rfl | rfl | rfl | rfl <;>
      exact fun h => Option.noConfusion h
  · obtain ⟨p0, p1, p2⟩ := p
    obtain ⟨h0, h1, h2⟩ := hcodon
    simp only [validPosition] at h0 h1 h2
    rcases h0 with rfl | rfl | rfl | rfl <;> rcases h1 with rfl | rfl | rfl | rfl <;>
      rcases h2 with rfl | rfl | rfl | rfl <;>
      rfl

/-- C6 at the codon AAC: index 1 decodes to (0,0,1). -/
theorem translate_total_on_codons_witness :
    standardCodonAlphabet.getPositions 1 = Except.ok ⟨0, 0, 1⟩ ∧
    Positions.isCodon ⟨0, 0, 1⟩ ∧
    (∃! r, translate standardCodonAlphabet sampleProteicAlphabet 1 = r ∧
      ((∃ l ∈ aminoAcidLetters, r = Except.ok (sampleProteicAlphabet.charToInt l)) ∨
        raisesStopCodon r = true)) ∧
    (translateSwitch sampleProteicAlphabet ⟨0, 0, 1⟩).exit ≠ none ∧
    (translateSwitch sampleProteicAlphabet ⟨0, 0, 1⟩).fellThrough = false :=
  ⟨by decide, by decide,
    translate_total_on_codons standardCodonAlphabet sampleProteicAlphabet 1 ⟨0, 0, 1⟩
      (by decide) (by decide)⟩

/-! ## Indices that do not decode to a codon -/

/-- On a codon alphabet with a fifth nucleotide code the index 4 decodes to
(0,0,4): the `switch` over the third position of case AA has no matching
label, control runs on into case AC, and the code of T is returned.  The
radix-4 alphabet decodes no index to such a triple. -/
theorem translate_AAN_returns_threonine :
    ambiguousCodonAlphabet.getPositions 4 = Except.ok ⟨0, 0, 4⟩ ∧
    ¬ Positions.isCodon ⟨0, 0, 4⟩ ∧
    translate ambiguousCodonAlphabet sampleProteicAlphabet 4 =
      Except.ok (sampleProteicAlphabet.charToInt "T") ∧
    raisesBadInt (translate ambiguousCodonAlphabet sampleProteicAlphabet 4) = false ∧
    (translateSwitch sampleProteicAlphabet ⟨0, 0, 4⟩).fellThrough = true := by
  decide

/-! ## The string overload -/

/-- A value returned by `translate(int)` reaches its caller. -/
theorem translateCall_of_ok (exceptionClasses : ExceptionClasses)
    (codonAlphabet : CodonAlphabet) (proteicAlphabet : ProteicAlphabet) (i n : Int)
    (hn : translate codonAlphabet proteicAlphabet i = Except.ok n) :
    translateCall exceptionClasses codonAlphabet proteicAlphabet i = Except.ok n := by
  unfold translateCall
  rw [hn]
  rfl

/-- An exception thrown by `translate(int)` reaches its caller when the
specification of line 24 allows it. -/
theorem translateCall_of_allowed (exceptionClasses : ExceptionClasses)
    (codonAlphabet : CodonAlphabet) (proteicAlphabet : ProteicAlphabet) (i : Int) (e : Exn)
    (he : translate codonAlphabet proteicAlphabet i = Except.error e)
    (hallow : exceptionClasses.allows [ExnClass.BadIntException] e = true) :
    translateCall exceptionClasses codonAlphabet proteicAlphabet i = Except.error e := by
  unfold translateCall
  rw [he]
  show (if exceptionClasses.allows [ExnClass.BadIntException] e = true then Except.error e
    else Except.error Exn.unexpected) = _
  rw [if_pos hallow]

/-- An exception thrown by `translate(int)` that the specification of line 24
does not allow ends in `std::unexpected()`. -/
theorem translateCall_of_blocked (exceptionClasses : ExceptionClasses)
    (codonAlphabet : CodonAlphabet) (proteicAlphabet : ProteicAlphabet) (i : Int) (e : Exn)
    (he : translate codonAlphabet proteicAlphabet i = Except.error e)
    (hblock : exceptionClasses.allows [ExnClass.BadIntException] e = false) :
    translateCall exceptionClasses codonAlphabet proteicAlphabet i =
      Except.error Exn.unexpected := by
  unfold translateCall
  rw [he]
  show (if exceptionClasses.allows [ExnClass.BadIntException] e = true then Except.error e
    else Except.error Exn.unexpected) = _
  rw [if_neg (by simp [hblock])]

/-- When the integer overload returns `n` on the index of `c`, the string
overload is `intToChar(n)`. -/
theorem translateString_of_ok (exceptionClasses : ExceptionClasses)
    (codonAlphabet : CodonAlphabet)
    (proteicAlphabet : ProteicAlphabet) (c : String) (i n : Int)
    (hc : codonAlphabet.charToInt c = Except.ok i)
    (hn : translate codonAlphabet proteicAlphabet i = Except.ok n) :
    translateString exceptionClasses codonAlphabet proteicAlphabet c =
      proteicAlphabet.intToChar n := by
  unfold translateString
  rw [hc]
  show (match translateCall exceptionClasses codonAlphabet proteicAlphabet i with
    | Except.error e => Except.error e
    | Except.ok n => proteicAlphabet.intToChar n) = _
  rw [translateCall_of_ok exceptionClasses codonAlphabet proteicAlphabet i n hn]

/-- When the call of the integer overload on the index of `c` yields the error
`e`, the string overload throws `e`. -/
theorem translateString_of_error (exceptionClasses : ExceptionClasses)
    (codonAlphabet : CodonAlphabet)
    (proteicAlphabet : ProteicAlphabet) (c : String) (i : Int) (e : Exn)
    (hc : codonAlphabet.charToInt c = Except.ok i)
    (he : translateCall exceptionClasses codonAlphabet proteicAlphabet i = Except.error e) :
    translateString exceptionClasses codonAlphabet proteicAlphabet c = Except.error e := by
  unfold translateString
  rw [hc]
  show (match translateCall exceptionClasses codonAlphabet proteicAlphabet i with
    | Except.error e => Except.error e
    | Except.ok n => proteicAlphabet.intToChar n) = _
  rw [he]

/-- C8: for every string `c` that the codon alphabet maps to an index `i`
decoding to one of the 61 non-stop codons, the integer overload returns some
`n` on `i` and `translate(c)` equals `intToChar(n)`. -/
theorem overloads_agree (exceptionClasses : ExceptionClasses)
    (codonAlphabet : CodonAlphabet)
    (proteicAlphabet : ProteicAlphabet) (c : String) (i : Int) (p : Positions)
    (hc : codonAlphabet.charToInt c = Except.ok i)
    (hget : codonAlphabet.getPositions i = Except.ok p) (hcodon : p.isCodon)
    (hnonstop : ¬ p.isStop) :
    ∃ n, translate codonAlphabet proteicAlphabet i = Except.ok n ∧
      translateString exceptionClasses codonAlphabet proteicAlphabet c =
        proteicAlphabet.intToChar n := by
  have hex : ∃ n, translate codonAlphabet proteicAlphabet i = Except.ok n := by
    rw [translate_of_getPositions codonAlphabet proteicAlphabet i p hget]
    obtain ⟨p0, p1, p2⟩ := p
    obtain ⟨h0, h1, h2⟩ := hcodon
    simp only [validPosition] at h0 h1 h2
    rcases h0 with rfl | rfl | rfl | rfl <;> rcases h1 with rfl | rfl | rfl | rfl <;>
      rcases h2 with rfl | rfl | rfl | rfl <;>
      first
        | exact ⟨_, rfl⟩
        | exact absurd (by decide) hnonstop
  obtain ⟨n, hn⟩ := hex
  exact ⟨n, hn,
    translateString_of_ok exceptionClasses codonAlphabet proteicAlphabet c i n hc hn⟩

/-- C8 at the string "AGC": index 9, the codon (0,2,1), not a stop codon. -/
theorem overloads_agree_witness :
    standardCodonAlphabet.charToInt "AGC" = Except.ok 9 ∧
    standardCodonAlphabet.getPositions 9 = Except.ok ⟨0, 2, 1⟩ ∧
    Positions.isCodon ⟨0, 2, 1⟩ ∧ ¬ Positions.isStop ⟨0, 2, 1⟩ ∧
    ∃ n, translate standardCodonAlphabet sampleProteicAlphabet 9 = Except.ok n ∧
      translateString specExceptionClasses standardCodonAlphabet sampleProteicAlphabet "AGC" =
        sampleProteicAlphabet.intToChar n :=
  ⟨by decide, by decide, by decide, by decide,
    overloads_agree specExceptionClasses standardCodonAlphabet sampleProteicAlphabet
      "AGC" 9 ⟨0, 2, 1⟩ (by decide) (by decide) (by decide) (by decide)⟩

/-- C9: when the codon alphabet rejects `c` with a `BadCharException`, the
string overload fails with that same exception, whatever `getPositions` and
the proteic alphabet are: nothing of the integer overload enters the
outcome. -/
theorem badChar_propagates (exceptionClasses : ExceptionClasses)
    (codonAlphabet : CodonAlphabet)
    (proteicAlphabet : ProteicAlphabet) (c : String)
    (ch text : String) (alphabet : AlphabetRef)
    (hc : codonAlphabet.charToInt c =
      Except.error (Exn.BadCharException ch text alphabet)) :
    translateString exceptionClasses codonAlphabet proteicAlphabet c =
      Except.error (Exn.BadCharException ch text alphabet) ∧
    ∀ (getPositions' : Int → Except Exn Positions) (proteicAlphabet' : ProteicAlphabet),
      translateString exceptionClasses ⟨codonAlphabet.charToInt, getPositions'⟩
          proteicAlphabet' c =
        Except.error (Exn.BadCharException ch text alphabet) := by
  constructor
  · unfold translateString
    rw [hc]
  · intro getPositions' proteicAlphabet'
    unfold translateString
    show (match codonAlphabet.charToInt c with
      | Except.error e => Except.error e
      | Except.ok i => _) = _
    rw [hc]

/-- C9 at the string "XYZ", which the radix-4 codon alphabet rejects. -/
theorem badChar_propagates_witness :
    standardCodonAlphabet.charToInt "XYZ" =
      Except.error (Exn.BadCharException "XYZ" "Alphabet::charToInt"
        AlphabetRef.codonAlphabet) ∧
    translateString specExceptionClasses standardCodonAlphabet sampleProteicAlphabet "XYZ" =
      Except.error (Exn.BadCharException "XYZ" "Alphabet::charToInt"
        AlphabetRef.codonAlphabet) ∧
    ∀ (getPositions' : Int → Except Exn Positions) (proteicAlphabet' : ProteicAlphabet),
      translateString specExceptionClasses ⟨standardCodonAlphabet.charToInt, getPositions'⟩
          proteicAlphabet' "XYZ" =
        Except.error (Exn.BadCharException "XYZ" "Alphabet::charToInt"
          AlphabetRef.codonAlphabet) :=
  ⟨by decide,
    badChar_propagates specExceptionClasses standardCodonAlphabet sampleProteicAlphabet
      "XYZ" "XYZ" "Alphabet::charToInt" AlphabetRef.codonAlphabet (by decide)⟩

/-! ## Errors of the integer overload and the exception specifications -/

/-- An error `e` of the integer overload is the error of the string overload,
whatever `intToChar` is, when the specification of line 24 allows `e`; and it
is what the caller of the string overload receives when the specification of
line 114 allows `e` too. -/
theorem int_errors_propagate_of_allowed (exceptionClasses : ExceptionClasses)
    (codonAlphabet : CodonAlphabet)
    (proteicAlphabet : ProteicAlphabet) (c : String) (i : Int) (e : Exn)
    (hc : codonAlphabet.charToInt c = Except.ok i)
    (he : translate codonAlphabet proteicAlphabet i = Except.error e)
    (hallow : exceptionClasses.allows [ExnClass.BadIntException] e = true) :
    translateString exceptionClasses codonAlphabet proteicAlphabet c = Except.error e ∧
    (∀ intToChar' : Int → Except Exn String,
      translateString exceptionClasses codonAlphabet
        ⟨proteicAlphabet.charToInt, intToChar'⟩ c = Except.error e) ∧
    (exceptionClasses.allows [ExnClass.BadCharException] e = true →
      translateStringCall exceptionClasses codonAlphabet proteicAlphabet c =
        Except.error e) := by
  have hcall := translateCall_of_allowed exceptionClasses codonAlphabet proteicAlphabet
    i e he hallow
  have hs := translateString_of_error exceptionClasses codonAlphabet proteicAlphabet
    c i e hc hcall
  refine ⟨hs, fun intToChar' => ?_, fun hallow' => ?_⟩
  · exact translateString_of_error exceptionClasses codonAlphabet
      ⟨proteicAlphabet.charToInt, intToChar'⟩ c i e hc
      (translateCall_of_allowed exceptionClasses codonAlphabet
        ⟨proteicAlphabet.charToInt, intToChar'⟩ i e he hallow)
  · unfold translateStringCall
    rw [hs]
    show (if exceptionClasses.allows [ExnClass.BadCharException] e = true then Except.error e
      else Except.error Exn.unexpected) = _
    rw [if_pos hallow']

/-- An error `e` of the integer overload that the specification of line 24
does not allow ends in `std::unexpected()`: neither the string overload nor
its caller receives `e`. -/
theorem int_errors_blocked (exceptionClasses : ExceptionClasses)
    (codonAlphabet : CodonAlphabet)
    (proteicAlphabet : ProteicAlphabet) (c : String) (i : Int) (e : Exn)
    (hc : codonAlphabet.charToInt c = Except.ok i)
    (he : translate codonAlphabet proteicAlphabet i = Except.error e)
    (hblock : exceptionClasses.allows [ExnClass.BadIntException] e = false) :
    translateString exceptionClasses codonAlphabet proteicAlphabet c =
      Except.error Exn.unexpected ∧
    translateStringCall exceptionClasses codonAlphabet proteicAlphabet c =
      Except.error Exn.unexpected := by
  have hs := translateString_of_error exceptionClasses codonAlphabet proteicAlphabet
    c i Exn.unexpected hc
    (translateCall_of_blocked exceptionClasses codonAlphabet proteicAlphabet i e he hblock)
  refine ⟨hs, ?_⟩
  unfold translateStringCall
  rw [hs]
  rfl

/-- A `StopCodonException` is blocked by the specification of line 24 exactly
when the class is not derived from `BadIntException`, and a `BadIntException`
by that of line 114 exactly when the class is not derived from
`BadCharException`. -/
theorem allows_iff_derivesFrom (exceptionClasses : ExceptionClasses)
    (text codon : String) (i : Int) (alphabet : AlphabetRef) :
    (exceptionClasses.allows [ExnClass.BadIntException]
        (Exn.StopCodonException text codon) =
      exceptionClasses.derivesFrom ExnClass.StopCodonException ExnClass.BadIntException) ∧
    (exceptionClasses.allows [ExnClass.BadCharException]
        (Exn.BadIntException i text alphabet) =
      exceptionClasses.derivesFrom ExnClass.BadIntException ExnClass.BadCharException) := by
  constructor <;> simp [ExceptionClasses.allows, Exn.exceptionClass]

/-- C10 at the string "TAA" (index 48 of the radix-4 codon alphabet), with the
three exception classes unrelated: the integer overload throws
`StopCodonException("", "TAA")` at line 90, which the specification
`throw (BadIntException)` of line 24 does not allow; the exception ends in
`std::unexpected()`, and neither the string overload nor its caller receives
the `StopCodonException`. -/
theorem stopCodon_ends_in_unexpected :
    standardCodonAlphabet.charToInt "TAA" = Except.ok 48 ∧
    translate standardCodonAlphabet sampleProteicAlphabet 48 =
      Except.error (Exn.StopCodonException "" "TAA") ∧
    translateCall specExceptionClasses standardCodonAlphabet sampleProteicAlphabet 48 =
      Except.error Exn.unexpected ∧
    translateString specExceptionClasses standardCodonAlphabet sampleProteicAlphabet "TAA" =
      Except.error Exn.unexpected ∧
    translateStringCall specExceptionClasses standardCodonAlphabet sampleProteicAlphabet
      "TAA" = Except.error Exn.unexpected ∧
    translateStringCall specExceptionClasses standardCodonAlphabet sampleProteicAlphabet
      "TAA" ≠ Except.error (Exn.StopCodonException "" "TAA") := by
  decide

/-! ## Determinism -/

/-- The nested `switch` reads the proteic alphabet only through `charToInt` on
the twenty amino-acid letters. -/
theorem translateSwitch_congr (proteicAlphabet proteicAlphabet' : ProteicAlphabet)
    (p : Positions)
    (hchar : ∀ l ∈ aminoAcidLetters,
      proteicAlphabet.charToInt l = proteicAlphabet'.charToInt l) :
    translateSwitch proteicAlphabet p = translateSwitch proteicAlphabet' p := by
  unfold translateSwitch
  rw [hchar "K" (by decide), hchar "N" (by decide), hchar "T" (by decide),
    hchar "R" (by decide), hchar "S" (by decide), hchar "M" (by decide),
    hchar "I" (by decide), hchar "Q" (by decide), hchar "H" (by decide),
    hchar "P" (by decide), hchar "L" (by decide), hchar "E" (by decide),
    hchar "D" (by decide), hchar "A" (by decide), hchar "G" (by decide),
    hchar "V" (by decide), hchar "Y" (by decide), hchar "W" (by decide),
    hchar "C" (by decide), hchar "F" (by decide)]

/-- C11: the outcome of either overload is a function of its input and of the
values of the alphabets' conversion functions: two calls with the same input,
on alphabets whose `getPositions` and `intToChar` agree, whose codon
`charToInt` agrees on the input and whose proteic `charToInt` agrees on the
twenty amino-acid letters, have the identical outcome (the same returned
value, or the same exception with the same payload). -/
theorem translate_deterministic (exceptionClasses : ExceptionClasses)
    (codonAlphabet codonAlphabet' : CodonAlphabet)
    (proteicAlphabet proteicAlphabet' : ProteicAlphabet) (i : Int) (c : String)
    (hget : ∀ j, codonAlphabet.getPositions j = codonAlphabet'.getPositions j)
    (hcodon : codonAlphabet.charToInt c = codonAlphabet'.charToInt c)
    (hchar : ∀ l ∈ aminoAcidLetters,
      proteicAlphabet.charToInt l = proteicAlphabet'.charToInt l)
    (hint : ∀ n, proteicAlphabet.intToChar n = proteicAlphabet'.intToChar n) :
    translate codonAlphabet proteicAlphabet i = translate codonAlphabet' proteicAlphabet' i ∧
    translateString exceptionClasses codonAlphabet proteicAlphabet c =
      translateString exceptionClasses codonAlphabet' proteicAlphabet' c := by
  have hint' : ∀ j, translate codonAlphabet proteicAlphabet j =
      translate codonAlphabet' proteicAlphabet' j := by
    intro j
    unfold translate
    rw [hget j]
    cases codonAlphabet'.getPositions j with
    | error e => rfl
    | ok p => simp only [translateSwitch_congr proteicAlphabet proteicAlphabet' p hchar]
  refine ⟨hint' i, ?_⟩
  unfold translateString
  rw [hcodon]
  cases codonAlphabet'.charToInt c with
  | error e => rfl
  | ok j =>
    simp only [translateCall, hint' j]
    cases leaveFunction exceptionClasses [ExnClass.BadIntException]
        (translate codonAlphabet' proteicAlphabet' j) with
    | error e => rfl
    | ok n => exact hint n

/-- C11 on two proteic alphabets that agree on the twenty letters and differ
elsewhere: both overloads have the same outcome on index 14 and on "ATG". -/
theorem translate_deterministic_witness :
    (∀ l ∈ aminoAcidLetters,
      sampleProteicAlphabet.charToInt l = otherProteicAlphabet.charToInt l) ∧
    sampleProteicAlphabet.charToInt "X" ≠ otherProteicAlphabet.charToInt "X" ∧
    translate standardCodonAlphabet sampleProteicAlphabet 14 =
      translate standardCodonAlphabet otherProteicAlphabet 14 ∧
    translateString specExceptionClasses standardCodonAlphabet sampleProteicAlphabet "ATG" =
      translateString specExceptionClasses standardCodonAlphabet otherProteicAlphabet "ATG" :=
  ⟨by decide, by decide,
    translate_deterministic specExceptionClasses standardCodonAlphabet standardCodonAlphabet
      sampleProteicAlphabet otherProteicAlphabet 14 "ATG"
      (fun _ => rfl) rfl (by decide) (fun _ => rfl)⟩

/-- C12: when the codon alphabet maps the spelling of a non-stop codon to an
index that `getPositions` decodes back to that codon, and `intToChar` undoes
`charToInt` on the twenty amino-acid letters, the string overload returns on
that spelling the single letter the standard genetic code has for the codon. -/
theorem translateString_standard_letter (exceptionClasses : ExceptionClasses)
    (codonAlphabet : CodonAlphabet)
    (proteicAlphabet : ProteicAlphabet) (p : Positions) (i : Int)
    (hcodon : p.isCodon) (hnonstop : ¬ p.isStop)
    (hc : codonAlphabet.charToInt p.spelling = Except.ok i)
    (hget : codonAlphabet.getPositions i = Except.ok p)
    (hround : ∀ l ∈ aminoAcidLetters,
      proteicAlphabet.intToChar (proteicAlphabet.charToInt l) = Except.ok l) :
    ∃ ch, lookup p = some ch ∧
      translateString exceptionClasses codonAlphabet proteicAlphabet p.spelling =
        Except.ok (String.singleton ch) := by
  obtain ⟨p0, p1, p2⟩ := p
  obtain ⟨h0, h1, h2⟩ := hcodon
  simp only [validPosition] at h0 h1 h2
  rcases h0 with rfl | rfl | rfl | rfl <;> rcases h1 with rfl | rfl | rfl | rfl <;>
    rcases h2 with rfl | rfl | rfl | rfl <;>
    first
      | exact absurd (by decide) hnonstop
      | exact ⟨_, rfl,
          (translateString_of_ok exceptionClasses codonAlphabet proteicAlphabet _ i _ hc
            ((translate_of_getPositions codonAlphabet proteicAlphabet i _ hget).trans rfl)).trans
            (hround _ (by decide))⟩

/-- C12 at the spellings "ATG", "TGG" and "AGC": the string overload returns
"M", "W" and "S". -/
theorem translateString_standard_letter_witness :
    translateString specExceptionClasses standardCodonAlphabet sampleProteicAlphabet "ATG" =
      Except.ok "M" ∧
    translateString specExceptionClasses standardCodonAlphabet sampleProteicAlphabet "TGG" =
      Except.ok "W" ∧
    translateString specExceptionClasses standardCodonAlphabet sampleProteicAlphabet "AGC" =
      Except.ok "S" ∧
    ∃ ch, lookup ⟨0, 3, 2⟩ = some ch ∧
      translateString specExceptionClasses standardCodonAlphabet sampleProteicAlphabet
        (Positions.spelling ⟨0, 3, 2⟩) = Except.ok (String.singleton ch) :=
  ⟨by decide, by decide, by decide,
    translateString_standard_letter specExceptionClasses standardCodonAlphabet
      sampleProteicAlphabet ⟨0, 3, 2⟩ 14
      (by decide) (by decide) (by decide) (by decide) (by decide)⟩

/-! ## The reach of the trailing throw -/

/-- A first position that is no nucleotide code matches no label of the outer
`switch`, which is skipped. -/
theorem translateSwitch_first_invalid (proteicAlphabet : ProteicAlphabet) (p0 p1 p2 : Int)
    (h : ¬ validPosition p0) :
    translateSwitch proteicAlphabet ⟨p0, p1, p2⟩ = ⟨none, false⟩ := by
  simp only [validPosition, not_or] at h
  obtain ⟨a0, a1, a2, a3⟩ := h
  simp [translateSwitch, switchOn, a0, a1, a2, a3]

/-- A second position that is no nucleotide code matches no label of any
`switch` over the second position: control reaches the closing brace. -/
theorem translateSwitch_second_invalid (proteicAlphabet : ProteicAlphabet) (p0 p1 p2 : Int)
    (h : ¬ validPosition p1) :
    (translateSwitch proteicAlphabet ⟨p0, p1, p2⟩).exit = none := by
  by_cases h0 : validPosition p0
  · simp only [validPosition, not_or] at h
    obtain ⟨b0, b1, b2, b3⟩ := h
    simp only [validPosition] at h0
    rcases h0 with rfl | rfl | rfl | rfl <;>
      simp [translateSwitch, switchOn, runCases, b0, b1, b2, b3]
  · rw [translateSwitch_first_invalid proteicAlphabet p0 p1 p2 h0]

/-- Every third position that is no nucleotide code behaves like 4: it matches
no label of any `switch` over the third position. -/
theorem translateSwitch_third_invalid (proteicAlphabet : ProteicAlphabet) (p0 p1 p2 : Int)
    (h : ¬ validPosition p2) :
    translateSwitch proteicAlphabet ⟨p0, p1, p2⟩ =
      translateSwitch proteicAlphabet ⟨p0, p1, 4⟩ := by
  simp only [validPosition, not_or] at h
  obtain ⟨c0, c1, c2, c3⟩ := h
  simp [translateSwitch, switchOn, c0, c1, c2, c3]

/-- The nested `switch` is left at its closing brace exactly on the triples of
`reachesTrailingThrow`. -/
theorem translateSwitch_exit_none_iff (proteicAlphabet : ProteicAlphabet) (p : Positions) :
    (translateSwitch proteicAlphabet p).exit = none ↔ p.reachesTrailingThrow := by
  obtain ⟨p0, p1, p2⟩ := p
  by_cases h0 : validPosition p0
  · by_cases h1 : validPosition p1
    · by_cases h2 : validPosition p2
      · simp only [validPosition] at h0 h1 h2
        rcases h0 with rfl | rfl | rfl | rfl <;> rcases h1 with rfl | rfl | rfl | rfl <;>
          rcases h2 with rfl | rfl | rfl | rfl <;>
          simp [translateSwitch, switchOn, runCases, Flow.ret, Flow.raise,
            Positions.reachesTrailingThrow, validPosition]
      · rw [translateSwitch_third_invalid proteicAlphabet p0 p1 p2 h2]
        simp only [Positions.reachesTrailingThrow, h2, not_false_eq_true, and_true]
        simp only [validPosition] at h0 h1
        rcases h0 with rfl | rfl | rfl | rfl <;> rcases h1 with rfl | rfl | rfl | rfl <;>
          simp [translateSwitch, switchOn, runCases, Flow.ret, Flow.raise, validPosition]
    · simp [translateSwitch_second_invalid proteicAlphabet p0 p1 p2 h1,
        Positions.reachesTrailingThrow, h1]
  · simp [translateSwitch_first_invalid proteicAlphabet p0 p1 p2 h0,
      Positions.reachesTrailingThrow, h0]

/-- No statement inside the nested `switch` raises `BadIntException`: the
outcome is a `BadIntException` exactly when control leaves the `switch` at
its closing brace. -/
theorem raisesBadInt_iff_exit_none (proteicAlphabet : ProteicAlphabet) (p : Positions)
    (i : Int) (text : String) (alphabet : AlphabetRef) :
    raisesBadInt ((translateSwitch proteicAlphabet p).exit.getD
        (Except.error (Exn.BadIntException i text alphabet))) = true ↔
      (translateSwitch proteicAlphabet p).exit = none := by
  obtain ⟨p0, p1, p2⟩ := p
  by_cases h0 : validPosition p0
  · by_cases h1 : validPosition p1
    · by_cases h2 : validPosition p2
      · simp only [validPosition] at h0 h1 h2
        rcases h0 with rfl | rfl | rfl | rfl <;> rcases h1 with rfl | rfl | rfl | rfl <;>
          rcases h2 with rfl | rfl | rfl | rfl <;>
          simp [translateSwitch, switchOn, runCases, Flow.ret, Flow.raise, raisesBadInt]
      · rw [translateSwitch_third_invalid proteicAlphabet p0 p1 p2 h2]
        simp only [validPosition] at h0 h1
        rcases h0 with rfl | rfl | rfl | rfl <;> rcases h1 with rfl | rfl | rfl | rfl <;>
          simp [translateSwitch, switchOn, runCases, Flow.ret, Flow.raise, raisesBadInt]
    · simp [translateSwitch_second_invalid proteicAlphabet p0 p1 p2 h1, raisesBadInt]
  · simp [translateSwitch_first_invalid proteicAlphabet p0 p1 p2 h0, raisesBadInt]

/-- C13: for every triple returned by `getPositions`, `translate` raises
`BadIntException` if and only if the first or the second position is outside
{0,1,2,3}, or the first is 3, the second is 2 or 3 and the third is outside
{0,1,2,3}; on every other triple with the third position outside {0,1,2,3} it
returns the code of an amino acid, and for the second positions whose case
has a `switch` over the third position this happens by running on into a
later case: (0,0,_) returns T, (0,2,_) R, (0,3,_) L, (1,0,_) P, (2,0,_) A and
(3,0,_) S. -/
theorem badInt_exact_reach (codonAlphabet : CodonAlphabet)
    (proteicAlphabet : ProteicAlphabet) (i : Int) (p : Positions)
    (hget : codonAlphabet.getPositions i = Except.ok p) :
    (raisesBadInt (translate codonAlphabet proteicAlphabet i) = true ↔
      p.reachesTrailingThrow) ∧
    (¬ validPosition p.p2 → ¬ p.reachesTrailingThrow →
      ∃ l ∈ aminoAcidLetters,
        translate codonAlphabet proteicAlphabet i =
          Except.ok (proteicAlphabet.charToInt l)) ∧
    (¬ validPosition p.p2 →
      (p.p0 = 0 ∧ p.p1 = 0 →
        translate codonAlphabet proteicAlphabet i =
          Except.ok (proteicAlphabet.charToInt "T") ∧
        (translateSwitch proteicAlphabet p).fellThrough = true) ∧
      (p.p0 = 0 ∧ p.p1 = 2 →
        translate codonAlphabet proteicAlphabet i =
          Except.ok (proteicAlphabet.charToInt "R") ∧
        (translateSwitch proteicAlphabet p).fellThrough = true) ∧
      (p.p0 = 0 ∧ p.p1 = 3 →
        translate codonAlphabet proteicAlphabet i =
          Except.ok (proteicAlphabet.charToInt "L") ∧
        (translateSwitch proteicAlphabet p).fellThrough = true) ∧
      (p.p0 = 1 ∧ p.p1 = 0 →
        translate codonAlphabet proteicAlphabet i =
          Except.ok (proteicAlphabet.charToInt "P") ∧
        (translateSwitch proteicAlphabet p).fellThrough = true) ∧
      (p.p0 = 2 ∧ p.p1 = 0 →
        translate codonAlphabet proteicAlphabet i =
          Except.ok (proteicAlphabet.charToInt "A") ∧
        (translateSwitch proteicAlphabet p).fellThrough = true) ∧
      (p.p0 = 3 ∧ p.p1 = 0 →
        translate codonAlphabet proteicAlphabet i =
          Except.ok (proteicAlphabet.charToInt "S") ∧
        (translateSwitch proteicAlphabet p).fellThrough = true)) := by
  rw [translate_of_getPositions codonAlphabet proteicAlphabet i p hget]
  obtain ⟨p0, p1, p2⟩ := p
  refine ⟨?_, ?_, ?_⟩
  · rw [raisesBadInt_iff_exit_none proteicAlphabet _ i _ _]
    exact translateSwitch_exit_none_iff proteicAlphabet _
  · intro h2 hreach
    have h0 : validPosition p0 := by
      by_contra h; exact hreach (Or.inl h)
    have h1 : validPosition p1 := by
      by_contra h; exact hreach (Or.inr (Or.inl h))
    rw [translateSwitch_third_invalid proteicAlphabet p0 p1 p2 h2]
    simp only [validPosition] at h0 h1
    rcases h0 with rfl | rfl | rfl | rfl <;> rcases h1 with rfl | rfl | rfl | rfl <;>
      first
        | exact ⟨_, by decide, rfl⟩
        | exact absurd (Or.inr (Or.inr ⟨rfl, by simp, h2⟩)) hreach
  · intro h2
    rw [translateSwitch_third_invalid proteicAlphabet p0 p1 p2 h2]
    refine ⟨?_, ?_, ?_, ?_, ?_, ?_⟩ <;>
    · rintro ⟨h0, h1⟩
      simp only at h0 h1
      subst h0 h1
      exact ⟨rfl, rfl⟩

/-- C13 at the index 89 of the five-letter codon alphabet, which decodes to
(3,2,4): control leaves the `switch` at its closing brace and `translate`
raises `BadIntException`. -/
theorem badInt_exact_reach_witness :
    ambiguousCodonAlphabet.getPositions 89 = Except.ok ⟨3, 2, 4⟩ ∧
    Positions.reachesTrailingThrow ⟨3, 2, 4⟩ ∧
    (raisesBadInt (translate ambiguousCodonAlphabet sampleProteicAlphabet 89) = true ↔
      Positions.reachesTrailingThrow ⟨3, 2, 4⟩) :=
  ⟨by decide, by decide,
    (badInt_exact_reach ambiguousCodonAlphabet sampleProteicAlphabet 89 ⟨3, 2, 4⟩
      (by decide)).1⟩

/-! ## Degeneracy -/

/-- The list `allCodons` holds exactly the codons. -/
theorem mem_allCodons (p : Positions) : p ∈ allCodons ↔ p.isCodon := by
  constructor
  · exact (by decide : ∀ q ∈ allCodons, q.isCodon) p
  · intro hcodon
    obtain ⟨p0, p1, p2⟩ := p
    obtain ⟨h0, h1, h2⟩ := hcodon
    simp only [validPosition] at h0 h1 h2
    rcases h0 with rfl | rfl | rfl | rfl <;> rcases h1 with rfl | rfl | rfl | rfl <;>
      rcases h2 with rfl | rfl | rfl | rfl <;>
      decide

/-- When `charToInt` is injective on the twenty amino-acid letters, `translate`
returns the code of a letter on a codon exactly when the standard genetic code
has that letter for the codon. -/
theorem translate_eq_letter_iff (codonAlphabet : CodonAlphabet)
    (proteicAlphabet : ProteicAlphabet) (i : Int) (p : Positions)
    (hget : codonAlphabet.getPositions i = Except.ok p) (hcodon : p.isCodon)
    (hinj : ∀ a ∈ aminoAcidLetters, ∀ b ∈ aminoAcidLetters,
      proteicAlphabet.charToInt a = proteicAlphabet.charToInt b → a = b)
    (l : String) (hl : l ∈ aminoAcidLetters) :
    translate codonAlphabet proteicAlphabet i = Except.ok (proteicAlphabet.charToInt l) ↔
      standardLetter p = some l := by
  rw [translate_of_getPositions codonAlphabet proteicAlphabet i p hget]
  obtain ⟨p0, p1, p2⟩ := p
  obtain ⟨h0, h1, h2⟩ := hcodon
  simp only [validPosition] at h0 h1 h2
  rcases h0 with rfl | rfl | rfl | rfl <;> rcases h1 with rfl | rfl | rfl | rfl <;>
    rcases h2 with rfl | rfl | rfl | rfl <;>
    constructor <;> intro h
  all_goals
    first
      | (have h' : _ = l := Option.some.inj h
         subst h'
         first
           | rfl
           | exact absurd hl (by decide))
      | (simp [translateSwitch, switchOn, runCases, Flow.ret, Flow.raise] at h
         have h' := hinj _ (by decide) l hl h
         subst h'
         rfl)
      | simp [translateSwitch, switchOn, runCases, Flow.ret, Flow.raise] at h

/-- C14: when `charToInt` is injective on the twenty amino-acid letters and
`index` names for each of the 64 codons an index decoding to it, exactly 61
codons return an amino acid, every one of the twenty amino acids is returned
by at least one codon, and the number of codons returning each amino acid is
the one of the standard genetic code: L, S, R six; A, G, P, T, V four; I
three; C, D, E, F, H, K, N, Q, Y two; M, W one. -/
theorem degeneracy_of_translate (codonAlphabet : CodonAlphabet)
    (proteicAlphabet : ProteicAlphabet) (index : Positions → Int)
    (hindex : ∀ p ∈ allCodons, codonAlphabet.getPositions (index p) = Except.ok p)
    (hinj : ∀ a ∈ aminoAcidLetters, ∀ b ∈ aminoAcidLetters,
      proteicAlphabet.charToInt a = proteicAlphabet.charToInt b → a = b) :
    allCodons.countP (fun p => aminoAcidLetters.any fun l =>
      decide (translate codonAlphabet proteicAlphabet (index p) =
        Except.ok (proteicAlphabet.charToInt l))) = 61 ∧
    (∀ l ∈ aminoAcidLetters, ∃ p ∈ allCodons,
      translate codonAlphabet proteicAlphabet (index p) =
        Except.ok (proteicAlphabet.charToInt l)) ∧
    (∀ ln ∈ degeneracy,
      allCodons.countP (fun p =>
        decide (translate codonAlphabet proteicAlphabet (index p) =
          Except.ok (proteicAlphabet.charToInt ln.1))) = ln.2) ∧
    List.Perm (degeneracy.map Prod.fst) aminoAcidLetters := by
  have H : ∀ p ∈ allCodons, ∀ l ∈ aminoAcidLetters,
      (translate codonAlphabet proteicAlphabet (index p) =
        Except.ok (proteicAlphabet.charToInt l) ↔ standardLetter p = some l) :=
    fun p hp l hl =>
      translate_eq_letter_iff codonAlphabet proteicAlphabet (index p) p (hindex p hp)
        ((mem_allCodons p).1 hp) hinj l hl
  refine ⟨?_, ?_, ?_, by decide⟩
  · have hclosed : allCodons.countP (fun p => aminoAcidLetters.any fun l =>
        decide (standardLetter p = some l)) = 61 := by decide
    rw [← hclosed]
    apply List.countP_congr
    intro p hp
    simp only [List.any_eq_true, decide_eq_true_eq]
    constructor
    · rintro ⟨l, hl, h⟩
      exact ⟨l, hl, (H p hp l hl).1 h⟩
    · rintro ⟨l, hl, h⟩
      exact ⟨l, hl, (H p hp l hl).2 h⟩
  · intro l hl
    obtain ⟨p, hp, h⟩ :=
      (by decide : ∀ l ∈ aminoAcidLetters, ∃ p ∈ allCodons, standardLetter p = some l) l hl
    exact ⟨p, hp, (H p hp l hl).2 h⟩
  · intro ln hln
    have hl : ln.1 ∈ aminoAcidLetters :=
      (by decide : ∀ ln ∈ degeneracy, ln.1 ∈ aminoAcidLetters) ln hln
    have hclosed : allCodons.countP (fun p => decide (standardLetter p = some ln.1)) = ln.2 :=
      (by decide : ∀ ln ∈ degeneracy,
        allCodons.countP (fun p => decide (standardLetter p = some ln.1)) = ln.2) ln hln
    rw [← hclosed]
    apply List.countP_congr
    intro p hp
    simp only [decide_eq_true_eq]
    exact H p hp ln.1 hl

/-- C14 on the radix-4 codon alphabet and the sample proteic alphabet: 61
codons return an amino acid, six of them the code of L and one the code of
M. -/
theorem degeneracy_of_translate_witness :
    (∀ p ∈ allCodons, standardCodonAlphabet.getPositions (radix4Index p) = Except.ok p) ∧
    (∀ a ∈ aminoAcidLetters, ∀ b ∈ aminoAcidLetters,
      sampleProteicAlphabet.charToInt a = sampleProteicAlphabet.charToInt b → a = b) ∧
    allCodons.countP (fun p => aminoAcidLetters.any fun l =>
      decide (translate standardCodonAlphabet sampleProteicAlphabet (radix4Index p) =
        Except.ok (sampleProteicAlphabet.charToInt l))) = 61 ∧
    allCodons.countP (fun p =>
      decide (translate standardCodonAlphabet sampleProteicAlphabet (radix4Index p) =
        Except.ok (sampleProteicAlphabet.charToInt "L"))) = 6 ∧
    allCodons.countP (fun p =>
      decide (translate standardCodonAlphabet sampleProteicAlphabet (radix4Index p) =
        Except.ok (sampleProteicAlphabet.charToInt "M"))) = 1 :=
  ⟨by decide, by decide,
    (degeneracy_of_translate standardCodonAlphabet sampleProteicAlphabet radix4Index
      (by decide) (by decide)).1,
    (degeneracy_of_translate standardCodonAlphabet sampleProteicAlphabet radix4Index
      (by decide) (by decide)).2.2.1 ("L", 6) (by decide),
    (degeneracy_of_translate standardCodonAlphabet sampleProteicAlphabet radix4Index
      (by decide) (by decide)).2.2.1 ("M", 1) (by decide)⟩

/-! ## Synonymous third positions -/

/-- C15: for first and second positions in {0,1,2,3}, `translate` returns on
the third positions C and T the code of one and the same amino acid; on the
third positions A and G it has the same outcome except for AT (I versus M)
and TG (stop versus W).  Outside AT, TG and TA the two outcomes are
identical; for TA both are a `StopCodonException`, carrying "TAA" and
"TAG". -/
theorem third_position_synonymy (codonAlphabet : CodonAlphabet)
    (proteicAlphabet : ProteicAlphabet) (p0 p1 : Int) (iA iC iG iT : Int)
    (h0 : validPosition p0) (h1 : validPosition p1)
    (hA : codonAlphabet.getPositions iA = Except.ok ⟨p0, p1, 0⟩)
    (hC : codonAlphabet.getPositions iC = Except.ok ⟨p0, p1, 1⟩)
    (hG : codonAlphabet.getPositions iG = Except.ok ⟨p0, p1, 2⟩)
    (hT : codonAlphabet.getPositions iT = Except.ok ⟨p0, p1, 3⟩) :
    (∃ l ∈ aminoAcidLetters,
      translate codonAlphabet proteicAlphabet iC = Except.ok (proteicAlphabet.charToInt l) ∧
      translate codonAlphabet proteicAlphabet iT = Except.ok (proteicAlphabet.charToInt l)) ∧
    (¬ (p0 = 0 ∧ p1 = 3) → ¬ (p0 = 3 ∧ p1 = 2) →
      sameOutcome (translate codonAlphabet proteicAlphabet iA)
        (translate codonAlphabet proteicAlphabet iG)) ∧
    (p0 = 0 ∧ p1 = 3 →
      translate codonAlphabet proteicAlphabet iA =
        Except.ok (proteicAlphabet.charToInt "I") ∧
      translate codonAlphabet proteicAlphabet iG =
        Except.ok (proteicAlphabet.charToInt "M")) ∧
    (p0 = 3 ∧ p1 = 2 →
      translate codonAlphabet proteicAlphabet iA =
        Except.error (Exn.StopCodonException "" "TGA") ∧
      translate codonAlphabet proteicAlphabet iG =
        Except.ok (proteicAlphabet.charToInt "W")) ∧
    (p0 = 3 ∧ p1 = 0 →
      translate codonAlphabet proteicAlphabet iA =
        Except.error (Exn.StopCodonException "" "TAA") ∧
      translate codonAlphabet proteicAlphabet iG =
        Except.error (Exn.StopCodonException "" "TAG")) ∧
    (¬ (p0 = 0 ∧ p1 = 3) → ¬ (p0 = 3 ∧ p1 = 2) → ¬ (p0 = 3 ∧ p1 = 0) →
      translate codonAlphabet proteicAlphabet iA =
        translate codonAlphabet proteicAlphabet iG) := by
  rw [translate_of_getPositions codonAlphabet proteicAlphabet iA _ hA,
    translate_of_getPositions codonAlphabet proteicAlphabet iC _ hC,
    translate_of_getPositions codonAlphabet proteicAlphabet iG _ hG,
    translate_of_getPositions codonAlphabet proteicAlphabet iT _ hT]
  simp only [validPosition] at h0 h1
  rcases h0 with rfl | rfl | rfl | rfl <;> rcases h1 with rfl | rfl | rfl | rfl <;>
    refine ⟨⟨_, by decide, rfl, rfl⟩, ?_, ?_, ?_, ?_, ?_⟩ <;>
    first
      | (intro h; exact absurd h.1 (by decide))
      | (intro h; exact absurd h.2 (by decide))
      | (intro _; exact ⟨rfl, rfl⟩)
      | (intro _ _; exact Or.inl rfl)
      | (intro _ _; exact Or.inr ⟨rfl, rfl⟩)
      | (intro h; exact absurd (by decide) h)
      | (intro _ h; exact absurd (by decide) h)
      | (intro _ _ _; rfl)
      | (intro _ _ h; exact absurd (by decide) h)

/-- C15 for the codons TAA, TAC, TAG, TAT (indices 48 to 51): TAC and TAT
return the code of one amino acid, TAA and TAG are both stop codons. -/
theorem third_position_synonymy_witness :
    validPosition 3 ∧ validPosition 0 ∧
    standardCodonAlphabet.getPositions 48 = Except.ok ⟨3, 0, 0⟩ ∧
    standardCodonAlphabet.getPositions 49 = Except.ok ⟨3, 0, 1⟩ ∧
    standardCodonAlphabet.getPositions 50 = Except.ok ⟨3, 0, 2⟩ ∧
    standardCodonAlphabet.getPositions 51 = Except.ok ⟨3, 0, 3⟩ ∧
    (∃ l ∈ aminoAcidLetters,
      translate standardCodonAlphabet sampleProteicAlphabet 49 =
        Except.ok (sampleProteicAlphabet.charToInt l) ∧
      translate standardCodonAlphabet sampleProteicAlphabet 51 =
        Except.ok (sampleProteicAlphabet.charToInt l)) ∧
    sameOutcome (translate standardCodonAlphabet sampleProteicAlphabet 48)
      (translate standardCodonAlphabet sampleProteicAlphabet 50) :=
  ⟨by decide, by decide, by decide, by decide, by decide, by decide,
    (third_position_synonymy standardCodonAlphabet sampleProteicAlphabet 3 0 48 49 50 51
      (by decide) (by decide) (by decide) (by decide) (by decide) (by decide)).1,
    (third_position_synonymy standardCodonAlphabet sampleProteicAlphabet 3 0 48 49 50 51
      (by decide) (by decide) (by decide) (by decide) (by decide) (by decide)).2.1
      (by decide) (by decide)⟩

/-! ## Indices that the radix-4 alphabet does not decode to a codon -/

end StandardGeneticCode
